import Mathlib

/-!
# Verification of the agent-battle debate engine

A shallow embedding of the debate orchestration engine
(`src/backend/app/graph.py`, with the serverless variant
`src/api/index.py` and the request model `src/backend/app/models.py`),
together with theorems settling the frozen claims about it.

The engine is an async generator; we embed it as a pure function from
explicit oracles to the emitted event list:

* the LLM streaming calls become an oracle
  `behavior : round → participant → prompt → StreamOutcome`, where a
  `StreamOutcome` lists the fragments yielded before the call either
  completes (`err = none`) or raises (`err = some message`);
* the mutable per-session stop flag, which other tasks may set at any
  time and the engine polls, becomes an oracle `stop : Nat → Bool`
  giving the flag's value at the engine's k-th poll;
* `uuid.uuid4()` message ids become an oracle `mkId : round → participant → String`;
* an uncaught exception inside the round loop (anything outside the
  per-call `try` in `_stream_response`) becomes an oracle
  `fault : round → participant → Option ExcInfo`, firing at the start of
  that participant's turn (where e.g. `_build_prompt` would raise).
-/

/-- `LLMProvider` enum from `src/backend/app/models.py`. -/
inductive LLMProvider where
  | openai
  | gemini
  | anthropic
deriving DecidableEq, Repr

/-- `LLMProvider.value` (the `str` payload of the Python enum). -/
def LLMProvider.value : LLMProvider → String
  | .openai => "openai"
  | .gemini => "gemini"
  | .anthropic => "anthropic"

/-- `SelectedModel` from `src/backend/app/models.py`. -/
structure SelectedModel where
  provider : LLMProvider
  model_id : String
deriving DecidableEq, Repr

/-- `StreamEvent` from `src/backend/app/models.py` (SSE event payload). -/
structure StreamEvent where
  event_type : String
  provider : Option LLMProvider := none
  content : String := ""
  message_id : Option String := none
  round_number : Nat := 0
  max_rounds : Option Nat := none
  model_id : Option String := none
deriving DecidableEq, Repr

/-- `AVAILABLE_MODELS` from `src/backend/app/models.py`, as
(model id, display name) pairs per provider. -/
def availableModels : LLMProvider → List (String × String)
  | .openai =>
      [("o3", "o3"), ("o4-mini", "o4-mini"), ("gpt-4.1", "GPT-4.1"),
       ("gpt-4.1-mini", "GPT-4.1 Mini"), ("gpt-4o", "GPT-4o")]
  | .gemini =>
      [("gemini-2.5-pro", "Gemini 2.5 Pro"), ("gemini-2.5-flash", "Gemini 2.5 Flash"),
       ("gemini-2.0-flash", "Gemini 2.0 Flash")]
  | .anthropic =>
      [("claude-opus-4-5-20251124", "Claude Opus 4.5"),
       ("claude-sonnet-4-5-20250929", "Claude Sonnet 4.5"),
       ("claude-haiku-4-5-20251015", "Claude Haiku 4.5")]

/-- `get_model_display_name` from `src/backend/app/graph.py`: first matching
display name, falling back to the raw model id. -/
def getModelDisplayName (p : LLMProvider) (modelId : String) : String :=
  match (availableModels p).find? (fun x => x.1 == modelId) with
  | some x => x.2
  | none => modelId

/-- The `latest_responses` dict: an insertion-ordered string-keyed map. -/
abbrev Latest := List (String × String)

/-- Python `d[k] = v` on `latest_responses`. -/
def setKey (m : Latest) (k v : String) : Latest :=
  if m.any (fun p => p.1 == k) then
    m.map (fun p => if p.1 == k then (k, v) else p)
  else
    m ++ [(k, v)]

/-- Python `d.get(k, "")` on `latest_responses`. -/
def getKey (m : Latest) (k : String) : String :=
  ((m.find? (fun p => p.1 == k)).map Prod.snd).getD ""

/-- The `f"{model.provider.value}_{model.model_id}"` key used for
`latest_responses` in `DebateGraph.run_debate`. -/
def modelKey (sm : SelectedModel) : String :=
  sm.provider.value ++ "_" ++ sm.model_id

/-- Default used where Python's list indexing `llms[other_index]` can rely on
`other_index < len(llms)` (the modulus guarantees it for nonempty lists). -/
def defaultSM : SelectedModel := ⟨.openai, ""⟩

/-- `DebateGraph._build_prompt` from `src/backend/app/graph.py` (the serverless
`build_prompt` in `src/api/index.py` is the same function): round 0 returns the
question verbatim; later rounds embed the `(i+1) mod n` participant's latest
recorded response in the fixed critique template. -/
def buildPrompt (question : String) (roundNum i : Nat) (latest : Latest)
    (llms : List SelectedModel) : String :=
  if roundNum = 0 then
    question
  else
    let other := llms.getD ((i + 1) % llms.length) defaultSM
    let otherName := getModelDisplayName other.provider other.model_id
    let otherResponse := getKey latest (modelKey other)
    "The other AI (" ++ otherName ++ ") responded:\n\n\"" ++ otherResponse ++
      "\"\n\nPlease critique this response, point out any flaws or " ++
      "missing perspectives, and provide your improved answer " ++
      "to the original question: " ++ question

/-- The fixed critique template of `_build_prompt`, stated on its three
inputs — the spec's wording of the round `r > 0` prompt shape. -/
def critiqueTemplate (question otherName otherResponse : String) : String :=
  "The other AI (" ++ otherName ++ ") responded:\n\n\"" ++ otherResponse ++
    "\"\n\nPlease critique this response, point out any flaws or " ++
    "missing perspectives, and provide your improved answer " ++
    "to the original question: " ++ question

/-- `Settings` from `src/backend/app/config.py` (the API-key fields consulted
by `create_llm`; each defaults to the empty string). `config.py` declares no
`anthropic_api_key` field. -/
structure Settings where
  openai_api_key : String := ""
  google_api_key : String := ""
deriving DecidableEq, Repr

/-- `create_llm` from `src/backend/app/graph.py`, reduced to its fallible
control flow: the openai and gemini branches raise `ValueError` when their
key is missing (Python truthiness: empty string), else construct the
adapter. The anthropic branch reads `settings.anthropic_api_key`, a field
`config.py`'s `Settings` does not declare, so that attribute access raises
`AttributeError` before any check runs — anthropic construction always
fails, with the `AttributeError`'s message as `str(e)`. -/
def createLlm (s : Settings) (m : SelectedModel) : Except String Unit :=
  match m.provider with
  | .openai =>
      if s.openai_api_key == "" then .error "OpenAI API key not configured" else .ok ()
  | .gemini =>
      if s.google_api_key == "" then .error "Google API key not configured" else .ok ()
  | .anthropic =>
      .error "'Settings' object has no attribute 'anthropic_api_key'"

/-- The adapter-construction loop at the top of `DebateGraph.run_debate`:
constructs adapters in participant order, stopping at the first failure with
the failing participant and the exception message. -/
def createAll (s : Settings) : List SelectedModel → Except (SelectedModel × String) Unit
  | [] => .ok ()
  | m :: rest =>
      match createLlm s m with
      | .ok _ => createAll s rest
      | .error e => .error (m, e)

/-- The default participant pair substituted by `run_debate` (and
`start_debate`) when fewer than two models are supplied. -/
def defaultModels : List SelectedModel :=
  [⟨.openai, "gpt-4.1"⟩, ⟨.gemini, "gemini-2.5-flash"⟩]

/-- `if models is None or len(models) < 2:` default substitution in
`DebateGraph.run_debate`. -/
def resolveModels : Option (List SelectedModel) → List SelectedModel
  | none => defaultModels
  | some l => if l.length < 2 then defaultModels else l

/-- `max_rounds: int = Field(default=2, ge=1, le=20)` on `DebateRequest`
(`src/backend/app/models.py` and `src/api/index.py`): a missing field takes
the default `2`; a supplied value outside `[1, 20]` fails validation
(pydantic rejects, it does not clamp). -/
def validateMaxRounds : Option Int → Except String Int
  | none => .ok 2
  | some n => if 1 ≤ n ∧ n ≤ 20 then .ok n else .error "validation error"

/-- Outcome of one `llm.astream` call: the fragments it yields, and whether
it then raises (`err = some message`) or completes (`err = none`). A call
raising after only a prefix of its output is the outcome listing exactly
that prefix. -/
structure StreamOutcome where
  frags : List String
  err : Option String
deriving DecidableEq, Repr

/-- Exception metadata (`type(e).__name__` and `str(e)`). -/
structure ExcInfo where
  className : String
  message : String
deriving DecidableEq, Repr

/-- `stream_start` event built in `DebateGraph._stream_response`. -/
def streamStartEvent (sm : SelectedModel) (msgId : String) (r R : Nat) : StreamEvent :=
  ⟨"stream_start", some sm.provider, "", some msgId, r, some R, some sm.model_id⟩

/-- `stream_chunk` event built in `DebateGraph._stream_response`. -/
def streamChunkEvent (sm : SelectedModel) (c msgId : String) (r R : Nat) : StreamEvent :=
  ⟨"stream_chunk", some sm.provider, c, some msgId, r, some R, some sm.model_id⟩

/-- `stream_end` event built in `DebateGraph._stream_response`. -/
def streamEndEvent (sm : SelectedModel) (full msgId : String) (r R : Nat) : StreamEvent :=
  ⟨"stream_end", some sm.provider, full, some msgId, r, some R, some sm.model_id⟩

/-- `round_start` event built in `DebateGraph.run_debate`. -/
def roundStartEvent (r R : Nat) : StreamEvent :=
  ⟨"round_start", none, "Round " ++ toString (r + 1), none, r, some R, none⟩

/-- `round_end` event built in `DebateGraph.run_debate`. -/
def roundEndEvent (r R : Nat) : StreamEvent :=
  ⟨"round_end", none, "Round " ++ toString (r + 1) ++ " complete", none, r, some R, none⟩

/-- `debate_end` (user-stopped) event built in `DebateGraph.run_debate`. -/
def debateEndStopEvent (r R : Nat) : StreamEvent :=
  ⟨"debate_end", none, "Debate stopped by user", none, r, some R, none⟩

/-- `debate_end` (completed) event built in `DebateGraph.run_debate`; the code
passes `round_number=round_num - 1` after the increment, i.e. the index of the
round just finished, which this constructor takes directly. -/
def debateEndCompleteEvent (r R : Nat) : StreamEvent :=
  ⟨"debate_end", none, "Debate completed", none, r, some R, none⟩

/-- `error` event of the outer `except` in `DebateGraph.run_debate`:
`content=str(e)`, `round_number=round_num`, no provider, no round limit. -/
def errorEvent (msg : String) (r : Nat) : StreamEvent :=
  ⟨"error", none, msg, none, r, none, none⟩

/-- `error` event of the adapter-construction loop in `run_debate`:
`content=f"Failed to initialize {provider.value}: {e}"`, `round_number=0`. -/
def initErrorEvent (sm : SelectedModel) (msg : String) : StreamEvent :=
  ⟨"error", none, "Failed to initialize " ++ sm.provider.value ++ ": " ++ msg,
   none, 0, none, none⟩

/-- Error-event content of the serverless variant's outer handler
(`generate_events` in `src/api/index.py`): `f"{type(e).__name__}: {str(e)}"`. -/
def apiErrorContent (e : ExcInfo) : String :=
  e.className ++ ": " ++ e.message

/-- `DebateGraph._stream_response`: emits `stream_start`, one `stream_chunk`
per non-empty fragment (accumulating them), and on an exception replaces the
accumulator with `"[Error: <message>]"` and emits that as one more chunk;
finally emits `stream_end` with the accumulator. Returns the emitted events
and the final accumulator (the `full_content` captured by `run_debate`). -/
def streamResponse (o : StreamOutcome) (sm : SelectedModel) (msgId : String)
    (r R : Nat) : List StreamEvent × String :=
  let kept := o.frags.filter (fun c => !(c == ""))
  match o.err with
  | none =>
      let full := String.join kept
      (streamStartEvent sm msgId r R ::
        (kept.map (fun c => streamChunkEvent sm c msgId r R) ++
          [streamEndEvent sm full msgId r R]),
       full)
  | some m =>
      let full := "[Error: " ++ m ++ "]"
      (streamStartEvent sm msgId r R ::
        (kept.map (fun c => streamChunkEvent sm c msgId r R) ++
          [streamChunkEvent sm full msgId r R, streamEndEvent sm full msgId r R]),
       full)

/-- All run-scoped oracles and configuration of one `run_debate` invocation,
after adapter construction succeeded. -/
structure RunCtx where
  question : String
  llms : List SelectedModel
  behavior : Nat → Nat → String → StreamOutcome
  fault : Nat → Nat → Option ExcInfo
  mkId : Nat → Nat → String
  stop : Nat → Bool
  maxRounds : Nat

/-- How the `for i, (selected_model, llm) in enumerate(llms)` loop exits:
normally, by `break` on a stop poll, or by an uncaught exception. -/
inductive TurnsExit where
  | finished
  | stopped
  | faulted (e : ExcInfo)
deriving DecidableEq, Repr

/-- Result of the participant loop of one round: emitted events, the updated
`latest_responses`, the next poll index, and how the loop exited. -/
structure TurnsResult where
  events : List StreamEvent
  latest : Latest
  polls : Nat
  exit : TurnsExit

/-- The per-round participant loop of `DebateGraph.run_debate` (lines
227–251): for each remaining `(index, model)` pair, poll the stop flag
(`break` when set), then — where `_build_prompt` runs — fire any injected
uncaught fault, else build the prompt, stream the response, and record the
final content under the participant's provider+model key. `k` is the index
of the next stop poll. -/
def runTurns (ctx : RunCtx) (r : Nat) :
    List (Nat × SelectedModel) → Nat → Latest → TurnsResult
  | [], k, latest => ⟨[], latest, k, .finished⟩
  | (i, sm) :: rest, k, latest =>
      if ctx.stop k then
        ⟨[], latest, k + 1, .stopped⟩
      else
        match ctx.fault r i with
        | some e => ⟨[], latest, k + 1, .faulted e⟩
        | none =>
            let prompt := buildPrompt ctx.question r i latest ctx.llms
            let sr := streamResponse (ctx.behavior r i prompt) sm (ctx.mkId r i) r ctx.maxRounds
            let res := runTurns ctx r rest (k + 1) (setKey latest (modelKey sm) sr.2)
            ⟨sr.1 ++ res.events, res.latest, res.polls, res.exit⟩

/-- The `while round_num < max_rounds` loop of `DebateGraph.run_debate`
(lines 206–291), including the outer `except`: poll the stop flag at the top
(emitting a user-stopped `debate_end` when set), emit `round_start`, run the
participant loop, re-poll after it (user-stopped `debate_end` when set), emit
`round_end`, and either finish with a completed `debate_end` or recurse into
the next round. A fault propagating out of the participant loop is caught by
the outer handler, which emits one `error` event with the exception message
and the current round index. `fuel` is `max_rounds - round_num`, which bounds
the remaining iterations. -/
def runRounds (ctx : RunCtx) : Nat → Nat → Nat → Latest → List StreamEvent
  | 0, _, _, _ => []
  | fuel + 1, r, k, latest =>
      if ctx.stop k then
        [debateEndStopEvent r ctx.maxRounds]
      else
        let turns := runTurns ctx r ctx.llms.enum (k + 1) latest
        match turns.exit with
        | .faulted e =>
            roundStartEvent r ctx.maxRounds :: (turns.events ++ [errorEvent e.message r])
        | _ =>
            if ctx.stop turns.polls then
              roundStartEvent r ctx.maxRounds ::
                (turns.events ++ [debateEndStopEvent r ctx.maxRounds])
            else if r + 1 ≥ ctx.maxRounds then
              roundStartEvent r ctx.maxRounds ::
                (turns.events ++
                  [roundEndEvent r ctx.maxRounds, debateEndCompleteEvent r ctx.maxRounds])
            else
              roundStartEvent r ctx.maxRounds ::
                (turns.events ++ roundEndEvent r ctx.maxRounds ::
                  runRounds ctx fuel (r + 1) (turns.polls + 1) turns.latest)

/-- The `_stop_signals` dict of `DebateGraph`. -/
abbrev SigMap := List (String × Bool)

/-- `DebateGraph.is_stopped`: `self._stop_signals.get(session_id, False)`. -/
def isStoppedMap (m : SigMap) (sessionId : String) : Bool :=
  ((m.find? (fun p => p.1 == sessionId)).map Prod.snd).getD false

/-- `DebateGraph.clear_stop_signal`: `self._stop_signals.pop(session_id, None)`. -/
def clearStopSignal (m : SigMap) (sessionId : String) : SigMap :=
  m.filter (fun p => !(p.1 == sessionId))

/-- `DebateGraph.run_debate` end to end: substitute default models when fewer
than two are given, construct the adapters (on the first failure yield a
single `error` event and return — note this path precedes the `try` whose
`finally` clears the stop signal, so the signal map is left untouched), else
run the round loop and, in its `finally`, pop the session's stop signal.
`sigsAtEnd` is the `_stop_signals` map as it stands when the generator
terminates; the in-run polls are the `stop` oracle. Returns the emitted
events and the `_stop_signals` map after termination. -/
def runDebate (settings : Settings) (sessionId question : String)
    (maxRounds : Nat) (models : Option (List SelectedModel))
    (behavior : Nat → Nat → String → StreamOutcome)
    (fault : Nat → Nat → Option ExcInfo)
    (mkId : Nat → Nat → String) (stop : Nat → Bool)
    (sigsAtEnd : SigMap) : List StreamEvent × SigMap :=
  let llms := resolveModels models
  match createAll settings llms with
  | .error pe => ([initErrorEvent pe.1 pe.2], sigsAtEnd)
  | .ok _ =>
      (runRounds ⟨question, llms, behavior, fault, mkId, stop, maxRounds⟩
        maxRounds 0 0 [],
       clearStopSignal sigsAtEnd sessionId)

/-- Concatenation, in emission order, of the contents of all `stream_chunk`
events in an event list (the client-side reconstruction of one message when
the list is one call's events). -/
def chunkConcat (evs : List StreamEvent) : String :=
  String.join ((evs.filter (fun e => e.event_type == "stream_chunk")).map
    (fun e => e.content))

/-- Content of the first `stream_end` event in an event list. -/
def endContent (evs : List StreamEvent) : Option String :=
  (evs.find? (fun e => e.event_type == "stream_end")).map (fun e => e.content)

/-- Concatenation, in emission order, of the contents of the `stream_chunk`
events carrying a given message id. -/
def chunkConcatFor (msgId : String) (evs : List StreamEvent) : String :=
  String.join ((evs.filter
      (fun e => e.event_type == "stream_chunk" && e.message_id == some msgId)).map
    (fun e => e.content))

/-- Content of the `stream_end` event carrying a given message id. -/
def endContentFor (msgId : String) (evs : List StreamEvent) : Option String :=
  (evs.find? (fun e => e.event_type == "stream_end" && e.message_id == some msgId)).map
    (fun e => e.content)

/-- Round-boundary events (`round_start` / `round_end`). -/
def isBoundary (e : StreamEvent) : Bool :=
  e.event_type == "round_start" || e.event_type == "round_end"

/-- The (kind, round index) trace of the round-boundary events of a run. -/
def boundarySeq (evs : List StreamEvent) : List (String × Nat) :=
  (evs.filter isBoundary).map (fun e => (e.event_type, e.round_number))

/-- The boundary trace of `m` complete rounds starting at index `r`:
`round_start r, round_end r, round_start (r+1), …`. -/
def roundPairs : Nat → Nat → List (String × Nat)
  | _, 0 => []
  | r, m + 1 => ("round_start", r) :: ("round_end", r) :: roundPairs (r + 1) m

/-- Substring test on the character lists: `pat` occurs inside `s`. -/
def containsStr (s pat : String) : Bool :=
  (List.range (s.data.length + 1)).any
    (fun i => pat.data.isPrefixOf (s.data.drop i))

/-- Oracle for an LLM that streams nothing and completes. -/
def quietBehavior : Nat → Nat → String → StreamOutcome := fun _ _ _ => ⟨[], none⟩

/-- Oracle for a run with no uncaught exception. -/
def noFault : Nat → Nat → Option ExcInfo := fun _ _ => none

/-- Oracle for a stop flag that is never set. -/
def noStop : Nat → Bool := fun _ => false

/-- A concrete deterministic message-id generator standing in for `uuid4`. -/
def mkIdW : Nat → Nat → String := fun r i => "m" ++ toString r ++ "-" ++ toString i

/-- Settings with the openai and gemini credentials configured. -/
def settingsOK : Settings := ⟨"sk", "gk"⟩

/-- Settings with no credential configured. -/
def settingsNone : Settings := ⟨"", ""⟩

/-- Oracle for an LLM whose call for participant 0 yields the fragment `"a"`
and then raises with message `"boom"`, while every other call yields `"ok"`
and completes. -/
def behaviorC1 : Nat → Nat → String → StreamOutcome :=
  fun _ i _ => if i == 0 then ⟨["a"], some "boom"⟩ else ⟨["ok"], none⟩

/-- A concrete fault-free two-round run context over the default models. -/
def ctxW : RunCtx := ⟨"Q", defaultModels, quietBehavior, noFault, mkIdW, noStop, 2⟩

/-- The same run context with the cancellation flag never raised: its
participant loop on a participant list is "those participants' full turns,
uninterrupted" — the reference against which a cancelled loop is compared. -/
def noStopCtx (ctx : RunCtx) : RunCtx :=
  ⟨ctx.question, ctx.llms, ctx.behavior, ctx.fault, ctx.mkId,
   (fun _ => false), ctx.maxRounds⟩

/-- A concrete one-round run context over the default models in which every
call streams the fragment `"x"`, and the stop flag is raised at poll index 2
— after the top-of-round poll (0) and participant 0's poll (1), i.e. while
participant 0's call is in flight. -/
def ctxStop2 : RunCtx :=
  ⟨"Q", defaultModels, (fun _ _ _ => ⟨["x"], none⟩), noFault, mkIdW,
   (fun k => decide (2 ≤ k)), 1⟩

/-- A concrete run context whose round-0 turn of participant 0 raises an
uncaught `ValueError("boom")`. -/
def ctxF : RunCtx :=
  ⟨"Q", defaultModels, quietBehavior,
   (fun r i => if r == 0 && i == 0 then some ⟨"ValueError", "boom"⟩ else none),
   mkIdW, noStop, 1⟩

/-! ## Helper lemmas -/

/-- A key absent from the `latest_responses` map looks up to the empty
string (`dict.get(key, "")`). -/
theorem getKey_eq_empty_of_absent (m : Latest) (k : String)
    (h : ∀ p ∈ m, ¬ p.1 = k) : getKey m k = "" := by
  unfold getKey
  rw [List.find?_eq_none.mpr]
  · rfl
  · intro x hx
    simpa using h x hx

/-! ## Claims -/

/-- Claim C10: for round index 0, the prompt builder returns the original
question verbatim, for every participant index, every participant list, and
every latest-response map. -/
theorem buildPrompt_round_zero (question : String) (i : Nat) (latest : Latest)
    (llms : List SelectedModel) :
    buildPrompt question 0 i latest llms = question := rfl

/-- Claim C2: for every round `r > 0` and participant index `i < n` in a
participant list of length `n ≥ 2` (duplicate provider+model entries being
distinct positions), the built prompt is the fixed critique template
embedding the display name and the latest recorded response of the
participant at position `(i+1) mod n`, where the recorded response of a
participant is the `latest_responses` entry at its provider+model key and
the empty string is substituted when that participant has no recorded
response. -/
theorem buildPrompt_critique_pairing (question : String) (r i : Nat)
    (latest : Latest) (llms : List SelectedModel)
    (hr : 0 < r) (hn : 2 ≤ llms.length) (hi : i < llms.length) :
    buildPrompt question r i latest llms =
      critiqueTemplate question
        (getModelDisplayName (llms.getD ((i + 1) % llms.length) defaultSM).provider
          (llms.getD ((i + 1) % llms.length) defaultSM).model_id)
        (getKey latest (modelKey (llms.getD ((i + 1) % llms.length) defaultSM))) ∧
      ((∀ p ∈ latest, ¬ p.1 = modelKey (llms.getD ((i + 1) % llms.length) defaultSM)) →
        buildPrompt question r i latest llms =
          critiqueTemplate question
            (getModelDisplayName (llms.getD ((i + 1) % llms.length) defaultSM).provider
              (llms.getD ((i + 1) % llms.length) defaultSM).model_id)
            "") := by
  have hne : ¬ r = 0 := Nat.pos_iff_ne_zero.mp hr
  have hmain : buildPrompt question r i latest llms =
      critiqueTemplate question
        (getModelDisplayName (llms.getD ((i + 1) % llms.length) defaultSM).provider
          (llms.getD ((i + 1) % llms.length) defaultSM).model_id)
        (getKey latest (modelKey (llms.getD ((i + 1) % llms.length) defaultSM))) := by
    unfold buildPrompt critiqueTemplate
    rw [if_neg hne]
  refine ⟨hmain, fun habs => ?_⟩
  rw [hmain, getKey_eq_empty_of_absent _ _ habs]

/-- Claim C2 witness: a list with two participants sharing provider and
model id, round 1, participant 0; the prompt critiques position `1 mod 2 = 1`
through the shared provider+model key. -/
theorem buildPrompt_critique_pairing_witness :
    buildPrompt "Q" 1 0 [("openai_gpt-4o", "resp")]
        [⟨LLMProvider.openai, "gpt-4o"⟩, ⟨LLMProvider.openai, "gpt-4o"⟩] =
      critiqueTemplate "Q"
        (getModelDisplayName LLMProvider.openai "gpt-4o")
        (getKey [("openai_gpt-4o", "resp")] "openai_gpt-4o") :=
  (buildPrompt_critique_pairing "Q" 1 0 [("openai_gpt-4o", "resp")]
    [⟨LLMProvider.openai, "gpt-4o"⟩, ⟨LLMProvider.openai, "gpt-4o"⟩]
    (by decide) (by decide) (by decide)).1

/-- Claim C6 counterexample: a supplied `maxRounds = 0` is rejected by the
`ge=1` validation constraint; it does not fall back to the default `2`. -/
theorem max_rounds_zero_rejected :
    validateMaxRounds (some 0) = Except.error "validation error" ∧
      ¬ validateMaxRounds (some 0) = Except.ok 2 := by
  refine ⟨rfl, fun h => ?_⟩
  rw [show validateMaxRounds (some 0) = Except.error "validation error" from rfl] at h
  exact Except.noConfusion h

/-- Claim C6 (amended): an unset `maxRounds` falls back to the default `2`;
a supplied value inside `[1, 20]` is accepted unchanged; a supplied value
outside `[1, 20]` (including `0`) is rejected with a validation failure — no
clamping occurs. -/
theorem max_rounds_validation :
    validateMaxRounds none = Except.ok 2 ∧
      (∀ n : Int, 1 ≤ n → n ≤ 20 → validateMaxRounds (some n) = Except.ok n) ∧
      (∀ n : Int, n < 1 ∨ 20 < n →
        validateMaxRounds (some n) = Except.error "validation error") := by
  refine ⟨rfl, fun n h1 h2 => ?_, fun n h => ?_⟩
  · simp only [validateMaxRounds]
    rw [if_pos ⟨h1, h2⟩]
  · simp only [validateMaxRounds]
    rw [if_neg]
    omega

/-- Claim C6 witness: `5` is accepted unchanged, `21` is rejected. -/
theorem max_rounds_validation_witness :
    validateMaxRounds (some 5) = Except.ok 5 ∧
      validateMaxRounds (some 21) = Except.error "validation error" :=
  ⟨max_rounds_validation.2.1 5 (by decide) (by decide),
   max_rounds_validation.2.2 21 (by decide)⟩

/-- Claim C5: when adapter construction fails for some configured
participant, the run emits exactly one event — an `error` event naming the
failing participant's provider and the failure reason — and in particular no
`round_start`; the debate is never partially started. -/
theorem init_failure_single_error_event (settings : Settings)
    (sessionId question : String) (maxRounds : Nat)
    (models : Option (List SelectedModel))
    (behavior : Nat → Nat → String → StreamOutcome)
    (fault : Nat → Nat → Option ExcInfo) (mkId : Nat → Nat → String)
    (stop : Nat → Bool) (sigs : SigMap) (sm : SelectedModel) (msg : String)
    (h : createAll settings (resolveModels models) = Except.error (sm, msg)) :
    (runDebate settings sessionId question maxRounds models behavior fault
        mkId stop sigs).1 = [initErrorEvent sm msg] ∧
      ∀ ev ∈ (runDebate settings sessionId question maxRounds models behavior
          fault mkId stop sigs).1, ev.event_type = "error" := by
  have hrun : (runDebate settings sessionId question maxRounds models behavior
      fault mkId stop sigs).1 = [initErrorEvent sm msg] := by
    simp only [runDebate]
    rw [h]
  refine ⟨hrun, fun ev hev => ?_⟩
  rw [hrun] at hev
  simp only [List.mem_singleton] at hev
  subst hev
  rfl

/-- Claim C5 witness: with no credentials configured, constructing the
adapter for the first default participant fails and the run's events are
exactly the one `error` event for provider `openai`. -/
theorem init_failure_single_error_event_witness :
    (runDebate settingsNone "s" "Q" 2 none quietBehavior noFault mkIdW noStop
        []).1 = [initErrorEvent ⟨LLMProvider.openai, "gpt-4.1"⟩
          "OpenAI API key not configured"] :=
  (init_failure_single_error_event settingsNone "s" "Q" 2 none quietBehavior
    noFault mkIdW noStop [] ⟨LLMProvider.openai, "gpt-4.1"⟩
    "OpenAI API key not configured" rfl).1

/-- Claim C7: if the session's stop flag is already set when the run begins
(first poll true), adapter construction succeeds and `maxRounds ≥ 1`, the run
emits exactly one `debate_end` event, with the user-stopped reason and round
index 0, and no message events at all. -/
theorem preset_stop_immediate_end (settings : Settings)
    (sessionId question : String) (maxRounds : Nat)
    (models : Option (List SelectedModel))
    (behavior : Nat → Nat → String → StreamOutcome)
    (fault : Nat → Nat → Option ExcInfo) (mkId : Nat → Nat → String)
    (stop : Nat → Bool) (sigs : SigMap)
    (hok : createAll settings (resolveModels models) = Except.ok ())
    (hR : 1 ≤ maxRounds) (hstop : stop 0 = true) :
    (runDebate settings sessionId question maxRounds models behavior fault
        mkId stop sigs).1 = [debateEndStopEvent 0 maxRounds] := by
  simp only [runDebate]
  rw [hok]
  obtain ⟨f, rfl⟩ : ∃ f, maxRounds = f + 1 := ⟨maxRounds - 1, by omega⟩
  simp only [runRounds]
  rw [hstop]
  rfl

/-- Claim C7 witness: stop flag set before a one-round default debate. -/
theorem preset_stop_immediate_end_witness :
    (runDebate settingsOK "s" "Q" 1 none quietBehavior noFault mkIdW
        (fun _ => true) []).1 = [debateEndStopEvent 0 1] :=
  preset_stop_immediate_end settingsOK "s" "Q" 1 none quietBehavior noFault
    mkIdW (fun _ => true) [] rfl (by decide) rfl

/-- Joining a concatenation of fragment lists is the concatenation of the joins. -/
theorem stringJoin_append (l1 l2 : List String) :
    String.join (l1 ++ l2) = String.join l1 ++ String.join l2 := by
  apply String.ext
  simp [String.data_join]

/-- Every event built by the chunk constructor passes the `stream_chunk` filter. -/
theorem filter_chunk_map (sm : SelectedModel) (msgId : String) (r R : Nat)
    (l : List String) :
    (l.map (fun c => streamChunkEvent sm c msgId r R)).filter
        (fun e => e.event_type == "stream_chunk") =
      l.map (fun c => streamChunkEvent sm c msgId r R) := by
  induction l with
  | nil => rfl
  | cons a t ih => simp [streamChunkEvent, ih]

/-- Searching for `stream_end` skips over any run of chunk events. -/
theorem find?_end_skip_chunks (sm : SelectedModel) (msgId : String) (r R : Nat)
    (l : List String) (tail : List StreamEvent) :
    (l.map (fun c => streamChunkEvent sm c msgId r R) ++ tail).find?
        (fun e => e.event_type == "stream_end") =
      tail.find? (fun e => e.event_type == "stream_end") := by
  induction l with
  | nil => rfl
  | cons a t ih =>
      rw [List.map_cons, List.cons_append,
        List.find?_cons_of_neg _ (by simp [streamChunkEvent]), ih]

/-- The content of a chunk event is the fragment it was built from. -/
theorem map_content_chunk (sm : SelectedModel) (msgId : String) (r R : Nat)
    (l : List String) :
    List.map ((fun e => e.content) ∘ fun c => streamChunkEvent sm c msgId r R) l = l := by
  induction l with
  | nil => rfl
  | cons a t ih =>
      rw [List.map_cons, ih]
      rfl

/-- Claim C1 (amended): for one streaming call, if the call completes
without raising, the concatenation of the emitted `stream_chunk` contents
equals the `stream_end` content; if it raises with message `m` after its
fragments, the `stream_end` content is exactly `"[Error: m]"`, while the
chunk concatenation is the already-emitted fragments followed by that error
string — the two agree only when no fragment preceded the failure. -/
theorem streamResponse_chunk_roundtrip (o : StreamOutcome) (sm : SelectedModel)
    (msgId : String) (r R : Nat) :
    (o.err = none →
      chunkConcat (streamResponse o sm msgId r R).1 =
        ((endContent (streamResponse o sm msgId r R).1).getD "")) ∧
    (∀ m, o.err = some m →
      endContent (streamResponse o sm msgId r R).1 = some ("[Error: " ++ m ++ "]") ∧
      chunkConcat (streamResponse o sm msgId r R).1 =
        String.join (o.frags.filter (fun c => !(c == ""))) ++ ("[Error: " ++ m ++ "]")) := by
  obtain ⟨frags, err⟩ := o
  constructor
  · intro herr
    subst herr
    simp only [streamResponse, chunkConcat, endContent]
    rw [List.filter_cons_of_neg (by simp [streamStartEvent]),
      List.find?_cons_of_neg _ (by simp [streamStartEvent]),
      List.filter_append, filter_chunk_map,
      List.filter_cons_of_neg (by simp [streamEndEvent]),
      find?_end_skip_chunks,
      List.find?_cons_of_pos _ (by simp [streamEndEvent])]
    simp only [List.filter_nil, List.append_nil, Option.map_some, Option.getD_some,
      streamEndEvent, List.map_map]
    rw [map_content_chunk]
    rfl
  · intro m herr
    subst herr
    simp only [streamResponse, chunkConcat, endContent]
    rw [List.filter_cons_of_neg (by simp [streamStartEvent]),
      List.find?_cons_of_neg _ (by simp [streamStartEvent]),
      List.filter_append, filter_chunk_map, find?_end_skip_chunks]
    constructor
    · rw [List.find?_cons_of_neg _ (by simp [streamChunkEvent]),
        List.find?_cons_of_pos _ (by simp [streamEndEvent])]
      rfl
    · rw [List.filter_cons_of_pos (by simp [streamChunkEvent]),
        List.filter_cons_of_neg (by simp [streamEndEvent])]
      simp only [List.filter_nil, List.map_append, List.map_map]
      rw [List.map_cons, List.map_nil]
      rw [map_content_chunk, stringJoin_append]
      simp [String.join, streamChunkEvent]

/-- Claim C1 counterexample: in a run whose first participant streams the
fragment `"a"` and then raises `"boom"`, the `stream_chunk` contents for the
message concatenate to `"a[Error: boom]"` while the `stream_end` content is
`"[Error: boom]"` — the reconstruction round-trip fails on the
exception-partway path. -/
theorem stream_chunk_concat_mismatch_on_midstream_failure :
    chunkConcatFor "m0-0"
        (runDebate settingsOK "s" "Q" 1 none behaviorC1 noFault mkIdW noStop []).1 =
      "a[Error: boom]" ∧
    endContentFor "m0-0"
        (runDebate settingsOK "s" "Q" 1 none behaviorC1 noFault mkIdW noStop []).1 =
      some "[Error: boom]" ∧
    ¬ chunkConcatFor "m0-0"
        (runDebate settingsOK "s" "Q" 1 none behaviorC1 noFault mkIdW noStop []).1 =
      ((endContentFor "m0-0"
        (runDebate settingsOK "s" "Q" 1 none behaviorC1 noFault mkIdW noStop []).1).getD "") := by
  decide

/-- Claim C1 witness: a call streaming `"a"`, `"b"` and completing
satisfies the round-trip equality. -/
theorem streamResponse_chunk_roundtrip_witness :
    chunkConcat (streamResponse ⟨["a", "b"], none⟩ defaultSM "m" 0 1).1 =
      ((endContent (streamResponse ⟨["a", "b"], none⟩ defaultSM "m" 0 1).1).getD "") :=
  (streamResponse_chunk_roundtrip ⟨["a", "b"], none⟩ defaultSM "m" 0 1).1 rfl

/-- Claim C3 counterexample: with the stop flag raised right after the
first poll (false at poll 0, true from poll 1 on), the run emits
`round_start` and then the user-stopped `debate_end` with no `stream_start`
at all — the flag set after `round_start` did prevent the round's
participants from taking their turns, because the engine re-polls
cancellation before every participant. -/
theorem stop_between_participants_cex :
    (fun k => !(k == 0)) 0 = false ∧
    (runDebate settingsOK "s" "Q" 1 none quietBehavior noFault mkIdW
        (fun k => !(k == 0)) []).1 =
      [roundStartEvent 0 1, debateEndStopEvent 0 1] ∧
    ∀ ev ∈ (runDebate settingsOK "s" "Q" 1 none quietBehavior noFault mkIdW
        (fun k => !(k == 0)) []).1, ¬ ev.event_type = "stream_start" := by
  decide

/-- Claim C4 counterexample: when adapter construction fails, the
generator returns before entering the `try` whose `finally` clears the stop
signal, so a flag set before the run survives it: `is_stopped` is still
true after `run_debate` terminates. -/
theorem stop_flag_survives_init_failure :
    (runDebate settingsNone "s" "Q" 1 none quietBehavior noFault mkIdW noStop
        [("s", true)]).2 = [("s", true)] ∧
    isStoppedMap (runDebate settingsNone "s" "Q" 1 none quietBehavior noFault
        mkIdW noStop [("s", true)]).2 "s" = true := by
  decide

/-- Claim C4 (amended): the session's stop flag is cleared unconditionally
on every terminal state reached from the round loop (normal completion,
user stop, mid-run error) — but on the adapter-construction-failure path
the `finally` is never entered and the signal map is left untouched. -/
theorem stop_flag_cleared_after_loop :
    (∀ (settings : Settings) (sid q : String) (R : Nat)
        (ms : Option (List SelectedModel)) (b : Nat → Nat → String → StreamOutcome)
        (f : Nat → Nat → Option ExcInfo) (mk : Nat → Nat → String)
        (st : Nat → Bool) (sigs : SigMap),
        createAll settings (resolveModels ms) = Except.ok () →
        isStoppedMap (runDebate settings sid q R ms b f mk st sigs).2 sid = false) ∧
    (∀ (settings : Settings) (sid q : String) (R : Nat)
        (ms : Option (List SelectedModel)) (b : Nat → Nat → String → StreamOutcome)
        (f : Nat → Nat → Option ExcInfo) (mk : Nat → Nat → String)
        (st : Nat → Bool) (sigs : SigMap) (pe : SelectedModel × String),
        createAll settings (resolveModels ms) = Except.error pe →
        (runDebate settings sid q R ms b f mk st sigs).2 = sigs) := by
  constructor
  · intro settings sid q R ms b f mk st sigs hok
    simp only [runDebate]
    rw [hok]
    unfold isStoppedMap clearStopSignal
    rw [List.find?_eq_none.mpr]
    · rfl
    · intro x hx
      have hmem := (List.mem_filter.mp hx).2
      simp only [Bool.not_eq_true'] at hmem
      simp [hmem]
  · intro settings sid q R ms b f mk st sigs pe hpe
    simp only [runDebate]
    rw [hpe]

/-- Claim C4 witness: a successful-construction run ends with the flag
cleared; a failed-construction run leaves the signal map unchanged. -/
theorem stop_flag_cleared_after_loop_witness :
    isStoppedMap (runDebate settingsOK "s" "Q" 1 none quietBehavior noFault mkIdW
        noStop [("s", true)]).2 "s" = false ∧
    (runDebate settingsNone "t" "Q" 1 none quietBehavior noFault mkIdW noStop
        [("t", true)]).2 = [("t", true)] :=
  ⟨stop_flag_cleared_after_loop.1 settingsOK "s" "Q" 1 none quietBehavior noFault
      mkIdW noStop [("s", true)] rfl,
   stop_flag_cleared_after_loop.2 settingsNone "t" "Q" 1 none quietBehavior noFault
      mkIdW noStop [("t", true)]
      ⟨⟨LLMProvider.openai, "gpt-4.1"⟩, "OpenAI API key not configured"⟩ rfl⟩

/-- Every event of one streaming call carries the call's round index, one of the three stream kinds, and the call's participant. -/
theorem streamResponse_events_spec (o : StreamOutcome) (sm : SelectedModel)
    (msgId : String) (r R : Nat) :
    ∀ ev ∈ (streamResponse o sm msgId r R).1,
      ev.round_number = r ∧
      (ev.event_type = "stream_start" ∨ ev.event_type = "stream_chunk" ∨
        ev.event_type = "stream_end") ∧
      ev.provider = some sm.provider ∧ ev.model_id = some sm.model_id := by
  obtain ⟨frags, err⟩ := o
  intro ev hev
  cases err with
  | none =>
      simp only [streamResponse, List.mem_cons, List.mem_append, List.mem_map,
        List.mem_singleton] at hev
      rcases hev with h | ⟨c, hc, h⟩ | h | h
      · subst h; simp [streamStartEvent]
      · subst h; simp [streamChunkEvent]
      · subst h; simp [streamEndEvent]
      · simp at h
  | some m =>
      simp only [streamResponse, List.mem_cons, List.mem_append, List.mem_map,
        List.mem_singleton] at hev
      rcases hev with h | ⟨c, hc, h⟩ | h | h | h
      · subst h; simp [streamStartEvent]
      · subst h; simp [streamChunkEvent]
      · subst h; simp [streamChunkEvent]
      · subst h; simp [streamEndEvent]
      · simp at h

/-- Every event of the participant loop carries the round index, a stream kind, and one of the listed participants. -/
theorem runTurns_events_spec (ctx : RunCtx) (r : Nat) :
    ∀ (ms : List (Nat × SelectedModel)) (k : Nat) (latest : Latest),
      ∀ ev ∈ (runTurns ctx r ms k latest).events,
        ev.round_number = r ∧
        (ev.event_type = "stream_start" ∨ ev.event_type = "stream_chunk" ∨
          ev.event_type = "stream_end") ∧
        ∃ p ∈ ms, ev.provider = some p.2.provider ∧ ev.model_id = some p.2.model_id := by
  intro ms
  induction ms with
  | nil =>
      intro k latest ev hev
      simp [runTurns] at hev
  | cons p rest ih =>
      intro k latest ev hev
      obtain ⟨i, sm⟩ := p
      simp only [runTurns] at hev
      cases hs : ctx.stop k with
      | true => rw [hs] at hev; simp at hev
      | false =>
          rw [hs] at hev
          cases hf : ctx.fault r i with
          | some e => rw [hf] at hev; simp at hev
          | none =>
              rw [hf] at hev
              rcases List.mem_append.mp hev with h | h
              · obtain ⟨h1, h2, h3, h4⟩ :=
                  streamResponse_events_spec _ sm (ctx.mkId r i) r ctx.maxRounds ev h
                exact ⟨h1, h2, ⟨(i, sm), List.mem_cons_self _ _, h3, h4⟩⟩
              · obtain ⟨h1, h2, q, hq, h3⟩ := ih _ _ ev h
                exact ⟨h1, h2, q, List.mem_cons_of_mem _ hq, h3⟩

/-- A faulted participant loop got its exception from the fault oracle at one of its listed participant indices. -/
theorem runTurns_faulted_fault (ctx : RunCtx) (r : Nat) :
    ∀ (ms : List (Nat × SelectedModel)) (k : Nat) (latest : Latest) (e : ExcInfo),
      (runTurns ctx r ms k latest).exit = TurnsExit.faulted e →
      ∃ p ∈ ms, ctx.fault r p.1 = some e := by
  intro ms
  induction ms with
  | nil =>
      intro k latest e hex
      simp [runTurns] at hex
  | cons p rest ih =>
      intro k latest e hex
      obtain ⟨i, sm⟩ := p
      simp only [runTurns] at hex
      cases hs : ctx.stop k with
      | true => rw [hs] at hex; simp at hex
      | false =>
          rw [hs] at hex
          cases hf : ctx.fault r i with
          | some e2 =>
              rw [hf] at hex
              dsimp only at hex
              refine ⟨(i, sm), List.mem_cons_self _ _, ?_⟩
              rw [hf]
              cases hex
              rfl
          | none =>
              rw [hf] at hex
              dsimp only at hex
              obtain ⟨q, hq, h⟩ := ih _ _ e hex
              exact ⟨q, List.mem_cons_of_mem _ hq, h⟩

/-- Branch analysis of one iteration of the round loop: the five possible shapes of its output. -/
theorem runRounds_succ_shape (ctx : RunCtx) (fuel r k : Nat) (latest : Latest) :
    (ctx.stop k = true ∧
      runRounds ctx (fuel + 1) r k latest = [debateEndStopEvent r ctx.maxRounds]) ∨
    (ctx.stop k = false ∧
      (let t := runTurns ctx r ctx.llms.enum (k + 1) latest
       (∃ e, t.exit = TurnsExit.faulted e ∧
          runRounds ctx (fuel + 1) r k latest =
            roundStartEvent r ctx.maxRounds ::
              (t.events ++ [errorEvent e.message r])) ∨
       (ctx.stop t.polls = true ∧
          runRounds ctx (fuel + 1) r k latest =
            roundStartEvent r ctx.maxRounds ::
              (t.events ++ [debateEndStopEvent r ctx.maxRounds])) ∨
       (ctx.stop t.polls = false ∧ r + 1 ≥ ctx.maxRounds ∧
          runRounds ctx (fuel + 1) r k latest =
            roundStartEvent r ctx.maxRounds ::
              (t.events ++ [roundEndEvent r ctx.maxRounds,
                debateEndCompleteEvent r ctx.maxRounds])) ∨
       (ctx.stop t.polls = false ∧ ¬ r + 1 ≥ ctx.maxRounds ∧
          runRounds ctx (fuel + 1) r k latest =
            roundStartEvent r ctx.maxRounds ::
              (t.events ++ roundEndEvent r ctx.maxRounds ::
                runRounds ctx fuel (r + 1) (t.polls + 1) t.latest)))) := by
  by_cases hs : ctx.stop k = true
  · left
    refine ⟨hs, ?_⟩
    rw [runRounds, if_pos hs]
  · right
    rw [Bool.not_eq_true] at hs
    refine ⟨hs, ?_⟩
    dsimp only
    rw [runRounds, if_neg (by simp [hs])]
    dsimp only
    cases hex : (runTurns ctx r ctx.llms.enum (k + 1) latest).exit with
    | faulted e =>
        left
        exact ⟨e, rfl, rfl⟩
    | finished =>
        right
        dsimp only
        by_cases hp : ctx.stop (runTurns ctx r ctx.llms.enum (k + 1) latest).polls = true
        · left
          exact ⟨hp, by rw [if_pos hp]⟩
        · rw [Bool.not_eq_true] at hp
          right
          by_cases hR : r + 1 ≥ ctx.maxRounds
          · left
            exact ⟨hp, hR, by rw [if_neg (by simp [hp]), if_pos hR]⟩
          · right
            exact ⟨hp, hR, by rw [if_neg (by simp [hp]), if_neg hR]⟩
    | stopped =>
        right
        dsimp only
        by_cases hp : ctx.stop (runTurns ctx r ctx.llms.enum (k + 1) latest).polls = true
        · left
          exact ⟨hp, by rw [if_pos hp]⟩
        · rw [Bool.not_eq_true] at hp
          right
          by_cases hR : r + 1 ≥ ctx.maxRounds
          · left
            exact ⟨hp, hR, by rw [if_neg (by simp [hp]), if_pos hR]⟩
          · right
            exact ⟨hp, hR, by rw [if_neg (by simp [hp]), if_neg hR]⟩

/-- Every event emitted from round `r` onward carries a round index of at least `r`. -/
theorem runRounds_round_ge (ctx : RunCtx) :
    ∀ (fuel r k : Nat) (latest : Latest),
      ∀ ev ∈ runRounds ctx fuel r k latest, r ≤ ev.round_number := by
  intro fuel
  induction fuel with
  | zero =>
      intro r k latest ev hev
      simp [runRounds] at hev
  | succ fuel ih =>
      intro r k latest ev hev
      rcases runRounds_succ_shape ctx fuel r k latest with ⟨hs, hrun⟩ | ⟨hs, hshape⟩
      · rw [hrun] at hev
        simp only [List.mem_singleton] at hev
        subst hev
        exact Nat.le_refl r
      · dsimp only at hshape
        have hturn := runTurns_events_spec ctx r ctx.llms.enum (k + 1) latest
        rcases hshape with ⟨e, hex, hrun⟩ | ⟨hp, hrun⟩ | ⟨hp, hR, hrun⟩ | ⟨hp, hR, hrun⟩ <;>
          rw [hrun] at hev <;>
          rcases List.mem_cons.mp hev with h | h
        · subst h; exact Nat.le_refl r
        · rcases List.mem_append.mp h with h | h
          · exact Nat.le_of_eq (hturn ev h).1.symm
          · simp only [List.mem_singleton] at h
            subst h
            exact Nat.le_refl r
        · subst h; exact Nat.le_refl r
        · rcases List.mem_append.mp h with h | h
          · exact Nat.le_of_eq (hturn ev h).1.symm
          · simp only [List.mem_singleton] at h
            subst h
            exact Nat.le_refl r
        · subst h; exact Nat.le_refl r
        · rcases List.mem_append.mp h with h | h
          · exact Nat.le_of_eq (hturn ev h).1.symm
          · rcases List.mem_cons.mp h with h | h
            · subst h; exact Nat.le_refl r
            · simp only [List.mem_singleton] at h
              subst h
              exact Nat.le_refl r
        · subst h; exact Nat.le_refl r
        · rcases List.mem_append.mp h with h | h
          · exact Nat.le_of_eq (hturn ev h).1.symm
          · rcases List.mem_cons.mp h with h | h
            · subst h; exact Nat.le_refl r
            · exact Nat.le_trans (Nat.le_succ r) (ih (r + 1) _ _ ev h)

/-- A list of events all carrying the same round index is non-decreasing. -/
theorem pairwise_le_of_const (l : List StreamEvent) (r : Nat)
    (h : ∀ e ∈ l, e.round_number = r) :
    List.Pairwise (fun a b => a.round_number ≤ b.round_number) l := by
  induction l with
  | nil => exact List.Pairwise.nil
  | cons a t ih =>
      refine List.Pairwise.cons (fun b hb => ?_) (ih (fun e he => h e (List.mem_cons_of_mem _ he)))
      rw [h a (List.mem_cons_self _ _), h b (List.mem_cons_of_mem _ hb)]

/-- All events of a round block (round start, turns, and a same-round tail) carry that round's index. -/
theorem mem_block_round (ctx : RunCtx) (r k : Nat) (latest : Latest) (R : Nat)
    (tail : List StreamEvent) (htail : ∀ e ∈ tail, e.round_number = r) :
    ∀ e ∈ roundStartEvent r R ::
        ((runTurns ctx r ctx.llms.enum (k + 1) latest).events ++ tail),
      e.round_number = r := by
  intro e he
  rcases List.mem_cons.mp he with h | h
  · subst h; rfl
  · rcases List.mem_append.mp h with h | h
    · exact (runTurns_events_spec ctx r ctx.llms.enum (k + 1) latest e h).1
    · exact htail e h

/-- The round indices of a run's events are non-decreasing in emission order. -/
theorem runRounds_pairwise (ctx : RunCtx) :
    ∀ (fuel r k : Nat) (latest : Latest),
      List.Pairwise (fun a b => a.round_number ≤ b.round_number)
        (runRounds ctx fuel r k latest) := by
  intro fuel
  induction fuel with
  | zero =>
      intro r k latest
      rw [runRounds]
      exact List.Pairwise.nil
  | succ fuel ih =>
      intro r k latest
      rcases runRounds_succ_shape ctx fuel r k latest with ⟨hs, hrun⟩ | ⟨hs, hshape⟩
      · rw [hrun]
        refine pairwise_le_of_const _ r (fun e he => ?_)
        simp only [List.mem_singleton] at he
        subst he
        rfl
      · dsimp only at hshape
        rcases hshape with ⟨e, hex, hrun⟩ | ⟨hp, hrun⟩ | ⟨hp, hR, hrun⟩ | ⟨hp, hR, hrun⟩
      
        · rw [hrun]
          refine pairwise_le_of_const _ r (mem_block_round ctx r k latest _ _ (fun x hx => ?_))
          simp only [List.mem_singleton] at hx
          subst hx
          rfl
        · rw [hrun]
          refine pairwise_le_of_const _ r (mem_block_round ctx r k latest _ _ (fun x hx => ?_))
          simp only [List.mem_singleton] at hx
          subst hx
          rfl
        · rw [hrun]
          refine pairwise_le_of_const _ r (mem_block_round ctx r k latest _ _ (fun x hx => ?_))
          rcases List.mem_cons.mp hx with h | h
          · subst h; rfl
          · simp only [List.mem_singleton] at h
            subst h
            rfl
        · rw [hrun]
          have heq : roundStartEvent r ctx.maxRounds ::
              ((runTurns ctx r ctx.llms.enum (k + 1) latest).events ++
                roundEndEvent r ctx.maxRounds ::
                  runRounds ctx fuel (r + 1)
                    ((runTurns ctx r ctx.llms.enum (k + 1) latest).polls + 1)
                    (runTurns ctx r ctx.llms.enum (k + 1) latest).latest) =
              (roundStartEvent r ctx.maxRounds ::
                ((runTurns ctx r ctx.llms.enum (k + 1) latest).events ++
                  [roundEndEvent r ctx.maxRounds])) ++
                runRounds ctx fuel (r + 1)
                  ((runTurns ctx r ctx.llms.enum (k + 1) latest).polls + 1)
                  (runTurns ctx r ctx.llms.enum (k + 1) latest).latest := by
            simp
          rw [heq]
          have hconst : ∀ e ∈ roundStartEvent r ctx.maxRounds ::
              ((runTurns ctx r ctx.llms.enum (k + 1) latest).events ++
                [roundEndEvent r ctx.maxRounds]), e.round_number = r := by
            refine mem_block_round ctx r k latest _ _ (fun x hx => ?_)
            simp only [List.mem_singleton] at hx
            subst hx
            rfl
          refine List.pairwise_append.mpr ⟨pairwise_le_of_const _ r hconst, ih _ _ _, ?_⟩
          intro a ha b hb
          have h1 : a.round_number = r := hconst a ha
          have h2 : r + 1 ≤ b.round_number := runRounds_round_ge ctx fuel (r + 1) _ _ b hb
          omega

/-- The payload of an indexed entry of `enumFrom` is an element of the underlying list. -/
theorem snd_mem_of_mem_enumFrom {α : Type} :
    ∀ (l : List α) (n : Nat) (p : Nat × α), p ∈ l.enumFrom n → p.2 ∈ l := by
  intro l
  induction l with
  | nil =>
      intro n p hp
      simp [List.enumFrom] at hp
  | cons a t ih =>
      intro n p hp
      rcases List.mem_cons.mp hp with h | h
      · subst h; exact List.mem_cons_self _ _
      · exact List.mem_cons_of_mem _ (ih (n + 1) p h)

/-- The payload of an indexed entry of `enum` is an element of the underlying list. -/
theorem snd_mem_of_mem_enum {α : Type} (l : List α) (p : Nat × α)
    (hp : p ∈ l.enum) : p.2 ∈ l :=
  snd_mem_of_mem_enumFrom l 0 p hp

/-- Every event of a run that names a provider names one of the configured participants, with its model id. -/
theorem runRounds_participants (ctx : RunCtx) :
    ∀ (fuel r k : Nat) (latest : Latest),
      ∀ ev ∈ runRounds ctx fuel r k latest, ∀ p : LLMProvider,
        ev.provider = some p →
        ∃ sm ∈ ctx.llms, sm.provider = p ∧ ev.model_id = some sm.model_id := by
  intro fuel
  induction fuel with
  | zero =>
      intro r k latest ev hev
      simp [runRounds] at hev
  | succ fuel ih =>
      intro r k latest ev hev p hprov
      have hturn : ev ∈ (runTurns ctx r ctx.llms.enum (k + 1) latest).events →
          ∃ sm ∈ ctx.llms, sm.provider = p ∧ ev.model_id = some sm.model_id := by
        intro h
        obtain ⟨_, _, q, hq, h3, h4⟩ :=
          runTurns_events_spec ctx r ctx.llms.enum (k + 1) latest ev h
        rw [hprov] at h3
        exact ⟨q.2, snd_mem_of_mem_enum _ q hq, (Option.some_inj.mp h3).symm, h4⟩
      rcases runRounds_succ_shape ctx fuel r k latest with ⟨hs, hrun⟩ | ⟨hs, hshape⟩
      · rw [hrun] at hev
        simp only [List.mem_singleton] at hev
        subst hev
        exact absurd hprov (by simp [debateEndStopEvent])
      · dsimp only at hshape
        rcases hshape with ⟨e, hex, hrun⟩ | ⟨hp2, hrun⟩ | ⟨hp2, hR, hrun⟩ | ⟨hp2, hR, hrun⟩ <;>
          rw [hrun] at hev <;>
          rcases List.mem_cons.mp hev with h | h
        · subst h; exact absurd hprov (by simp [roundStartEvent])
        · rcases List.mem_append.mp h with h | h
          · exact hturn h
          · simp only [List.mem_singleton] at h
            subst h
            exact absurd hprov (by simp [errorEvent])
        · subst h; exact absurd hprov (by simp [roundStartEvent])
        · rcases List.mem_append.mp h with h | h
          · exact hturn h
          · simp only [List.mem_singleton] at h
            subst h
            exact absurd hprov (by simp [debateEndStopEvent])
        · subst h; exact absurd hprov (by simp [roundStartEvent])
        · rcases List.mem_append.mp h with h | h
          · exact hturn h
          · rcases List.mem_cons.mp h with h | h
            · subst h; exact absurd hprov (by simp [roundEndEvent])
            · simp only [List.mem_singleton] at h
              subst h
              exact absurd hprov (by simp [debateEndCompleteEvent])
        · subst h; exact absurd hprov (by simp [roundStartEvent])
        · rcases List.mem_append.mp h with h | h
          · exact hturn h
          · rcases List.mem_cons.mp h with h | h
            · subst h; exact absurd hprov (by simp [roundEndEvent])
            · exact ih (r + 1) _ _ ev h p hprov

/-- The participant loop emits no round-boundary events. -/
theorem turns_no_boundary (ctx : RunCtx) (r k : Nat) (latest : Latest) :
    (runTurns ctx r ctx.llms.enum (k + 1) latest).events.filter isBoundary = [] := by
  rw [List.filter_eq_nil_iff]
  intro a ha
  obtain ⟨_, h2, _⟩ := runTurns_events_spec ctx r ctx.llms.enum (k + 1) latest a ha
  rcases h2 with h | h | h <;> simp [isBoundary, h]

/-- The boundary trace of a run is an alternation of `round_start`/`round_end` pairs with consecutive indices, possibly ending in an unmatched `round_start`. -/
theorem runRounds_boundaries (ctx : RunCtx) :
    ∀ (fuel r k : Nat) (latest : Latest),
      ∃ m, boundarySeq (runRounds ctx fuel r k latest) = roundPairs r m ∨
        boundarySeq (runRounds ctx fuel r k latest) =
          roundPairs r m ++ [("round_start", r + m)] := by
  intro fuel
  induction fuel with
  | zero =>
      intro r k latest
      exact ⟨0, Or.inl (by rw [runRounds]; rfl)⟩
  | succ fuel ih =>
      intro r k latest
      rcases runRounds_succ_shape ctx fuel r k latest with ⟨hs, hrun⟩ | ⟨hs, hshape⟩
      · refine ⟨0, Or.inl ?_⟩
        rw [hrun]
        rfl
      · dsimp only at hshape
        rcases hshape with ⟨e, hex, hrun⟩ | ⟨hp2, hrun⟩ | ⟨hp2, hR, hrun⟩ | ⟨hp2, hR, hrun⟩
        · refine ⟨0, Or.inr ?_⟩
          rw [hrun]
          unfold boundarySeq
          rw [List.filter_cons_of_pos (by simp [isBoundary, roundStartEvent]),
            List.filter_append, turns_no_boundary]
          rfl
        · refine ⟨0, Or.inr ?_⟩
          rw [hrun]
          unfold boundarySeq
          rw [List.filter_cons_of_pos (by simp [isBoundary, roundStartEvent]),
            List.filter_append, turns_no_boundary]
          rfl
        · refine ⟨1, Or.inl ?_⟩
          rw [hrun]
          unfold boundarySeq
          rw [List.filter_cons_of_pos (by simp [isBoundary, roundStartEvent]),
            List.filter_append, turns_no_boundary]
          rfl
        · obtain ⟨m', hm'⟩ := ih (r + 1)
            ((runTurns ctx r ctx.llms.enum (k + 1) latest).polls + 1)
            (runTurns ctx r ctx.llms.enum (k + 1) latest).latest
          have hbs : boundarySeq (runRounds ctx (fuel + 1) r k latest) =
              ("round_start", r) :: ("round_end", r) ::
                boundarySeq (runRounds ctx fuel (r + 1)
                  ((runTurns ctx r ctx.llms.enum (k + 1) latest).polls + 1)
                  (runTurns ctx r ctx.llms.enum (k + 1) latest).latest) := by
            rw [hrun]
            unfold boundarySeq
            rw [List.filter_cons_of_pos (by simp [isBoundary, roundStartEvent]),
              List.filter_append, turns_no_boundary,
              List.filter_cons_of_pos (by simp [isBoundary, roundEndEvent])]
            rfl
          rcases hm' with h | h
          · refine ⟨m' + 1, Or.inl ?_⟩
            rw [hbs, h]
            rfl
          · refine ⟨m' + 1, Or.inr ?_⟩
            rw [hbs, h, show r + 1 + m' = r + (m' + 1) from by omega]
            rfl

/-- The participant loop emits no `error` events. -/
theorem turns_no_error (ctx : RunCtx) (r k : Nat) (latest : Latest) :
    ∀ ev ∈ (runTurns ctx r ctx.llms.enum (k + 1) latest).events,
      ¬ ev.event_type = "error" := by
  intro ev hev
  obtain ⟨_, h2, _⟩ := runTurns_events_spec ctx r ctx.llms.enum (k + 1) latest ev hev
  rcases h2 with h | h | h <;> simp [h]

/-- Filtering the participant loop's events for `error` yields nothing. -/
theorem turns_filter_error (ctx : RunCtx) (r k : Nat) (latest : Latest) :
    (runTurns ctx r ctx.llms.enum (k + 1) latest).events.filter
      (fun e => e.event_type == "error") = [] := by
  rw [List.filter_eq_nil_iff]
  intro a ha
  simpa using turns_no_error ctx r k latest a ha

/-- Claim C8 (amended): a debate run emits at most one `error` event; any
`error` event it emits comes from an uncaught exception reported by the
fault oracle at some round, carries exactly that exception's message as its
content (the backend engine's `str(e)` — the class name is not included)
and that round's index in its round-number field, and is the run's last
event — nothing is produced after it. -/
theorem run_error_event_spec (ctx : RunCtx) :
    ∀ (fuel r k : Nat) (latest : Latest),
      ((runRounds ctx fuel r k latest).filter
          (fun e => e.event_type == "error")).length ≤ 1 ∧
      ∀ ev ∈ runRounds ctx fuel r k latest, ev.event_type = "error" →
        (∃ rf i e, ctx.fault rf i = some e ∧ ev = errorEvent e.message rf) ∧
        (runRounds ctx fuel r k latest).getLast? = some ev := by
  intro fuel
  induction fuel with
  | zero =>
      intro r k latest
      refine ⟨?_, fun ev hev => ?_⟩
      · rw [runRounds]
        exact Nat.zero_le 1
      · rw [runRounds] at hev
        simp at hev
  | succ fuel ih =>
      intro r k latest
      rcases runRounds_succ_shape ctx fuel r k latest with ⟨hs, hrun⟩ | ⟨hs, hshape⟩
      · rw [hrun]
        refine ⟨by simp [debateEndStopEvent], fun ev hev het => ?_⟩
        simp only [List.mem_singleton] at hev
        subst hev
        exact absurd het (by simp [debateEndStopEvent])
      · dsimp only at hshape
        rcases hshape with ⟨e, hex, hrun⟩ | ⟨hp2, hrun⟩ | ⟨hp2, hR, hrun⟩ | ⟨hp2, hR, hrun⟩
        · rw [hrun]
          constructor
          · rw [List.filter_cons_of_neg (by simp [roundStartEvent]),
              List.filter_append, turns_filter_error,
              List.filter_cons_of_pos (by simp [errorEvent])]
            simp
          · intro ev hev het
            rcases List.mem_cons.mp hev with h | h
            · subst h; exact absurd het (by simp [roundStartEvent])
            · rcases List.mem_append.mp h with h | h
              · exact absurd het (turns_no_error ctx r k latest ev h)
              · simp only [List.mem_singleton] at h
                subst h
                obtain ⟨p, _, hpf⟩ :=
                  runTurns_faulted_fault ctx r ctx.llms.enum (k + 1) latest e hex
                refine ⟨⟨r, p.1, e, hpf, rfl⟩, ?_⟩
                rw [show roundStartEvent r ctx.maxRounds ::
                    ((runTurns ctx r ctx.llms.enum (k + 1) latest).events ++
                      [errorEvent e.message r]) =
                    (roundStartEvent r ctx.maxRounds ::
                      (runTurns ctx r ctx.llms.enum (k + 1) latest).events) ++
                      [errorEvent e.message r] from rfl]
                exact List.getLast?_concat _
        · rw [hrun]
          constructor
          · rw [List.filter_cons_of_neg (by simp [roundStartEvent]),
              List.filter_append, turns_filter_error,
              List.filter_cons_of_neg (by simp [debateEndStopEvent])]
            simp
          · intro ev hev het
            rcases List.mem_cons.mp hev with h | h
            · subst h; exact absurd het (by simp [roundStartEvent])
            · rcases List.mem_append.mp h with h | h
              · exact absurd het (turns_no_error ctx r k latest ev h)
              · simp only [List.mem_singleton] at h
                subst h
                exact absurd het (by simp [debateEndStopEvent])
        · rw [hrun]
          constructor
          · rw [List.filter_cons_of_neg (by simp [roundStartEvent]),
              List.filter_append, turns_filter_error,
              List.filter_cons_of_neg (by simp [roundEndEvent]),
              List.filter_cons_of_neg (by simp [debateEndCompleteEvent])]
            simp
          · intro ev hev het
            rcases List.mem_cons.mp hev with h | h
            · subst h; exact absurd het (by simp [roundStartEvent])
            · rcases List.mem_append.mp h with h | h
              · exact absurd het (turns_no_error ctx r k latest ev h)
              · rcases List.mem_cons.mp h with h | h
                · subst h; exact absurd het (by simp [roundEndEvent])
                · simp only [List.mem_singleton] at h
                  subst h
                  exact absurd het (by simp [debateEndCompleteEvent])
        · rw [hrun]
          constructor
          · rw [List.filter_cons_of_neg (by simp [roundStartEvent]),
              List.filter_append, turns_filter_error,
              List.filter_cons_of_neg (by simp [roundEndEvent])]
            exact (ih (r + 1) _ _).1
          · intro ev hev het
            rcases List.mem_cons.mp hev with h | h
            · subst h; exact absurd het (by simp [roundStartEvent])
            · rcases List.mem_append.mp h with h | h
              · exact absurd het (turns_no_error ctx r k latest ev h)
              · rcases List.mem_cons.mp h with h | h
                · subst h; exact absurd het (by simp [roundEndEvent])
                · obtain ⟨hwit, hlast⟩ := (ih (r + 1)
                    ((runTurns ctx r ctx.llms.enum (k + 1) latest).polls + 1)
                    (runTurns ctx r ctx.llms.enum (k + 1) latest).latest).2 ev h het
                  refine ⟨hwit, ?_⟩
                  rw [show roundStartEvent r ctx.maxRounds ::
                      ((runTurns ctx r ctx.llms.enum (k + 1) latest).events ++
                        roundEndEvent r ctx.maxRounds ::
                          runRounds ctx fuel (r + 1)
                            ((runTurns ctx r ctx.llms.enum (k + 1) latest).polls + 1)
                            (runTurns ctx r ctx.llms.enum (k + 1) latest).latest) =
                      (roundStartEvent r ctx.maxRounds ::
                        ((runTurns ctx r ctx.llms.enum (k + 1) latest).events ++
                          [roundEndEvent r ctx.maxRounds])) ++
                        runRounds ctx fuel (r + 1)
                          ((runTurns ctx r ctx.llms.enum (k + 1) latest).polls + 1)
                          (runTurns ctx r ctx.llms.enum (k + 1) latest).latest
                    from by simp]
                  rw [List.getLast?_append, hlast]
                  rfl

/-- Claim C8 counterexample: an uncaught `ValueError("boom")` during round 0
of a default run yields `round_start` followed by a single `error` event
whose content is just `"boom"` — the message alone; the class name
`"ValueError"` does not occur in the content (the serverless variant's
format `"ValueError: boom"` would contain it). -/
theorem error_event_lacks_class_name :
    (runDebate settingsOK "s" "Q" 1 none quietBehavior
        (fun r i => if r == 0 && i == 0 then some ⟨"ValueError", "boom"⟩ else none)
        mkIdW noStop []).1 =
      [roundStartEvent 0 1, errorEvent "boom" 0] ∧
    containsStr (errorEvent "boom" 0).content "ValueError" = false ∧
    containsStr (apiErrorContent ⟨"ValueError", "boom"⟩) "ValueError" = true := by
  decide

/-- Claim C8 witness: in the concrete faulting run context, the engine's
`error` event is explained by the injected fault and is the run's last
event. -/
theorem run_error_event_spec_witness :
    (∃ rf i e, ctxF.fault rf i = some e ∧
      errorEvent "boom" 0 = errorEvent e.message rf) ∧
    (runRounds ctxF 1 0 0 []).getLast? = some (errorEvent "boom" 0) :=
  (run_error_event_spec ctxF 1 0 0 []).2 (errorEvent "boom" 0) (by decide) rfl

/-- Claim C9: for every debate run, (i) the round indices of the emitted
events are non-decreasing in emission order, (ii) every event naming a
participant names one of the session's configured participants together
with its model id, and (iii) the round-boundary trace alternates
`round_start r, round_end r, round_start (r+1), …` — each round's
`round_start` precedes its `round_end`, which precedes the next round's
`round_start`, with at most a final unmatched `round_start`. -/
theorem run_event_ordering_invariants (ctx : RunCtx) (fuel r k : Nat)
    (latest : Latest) :
    List.Pairwise (fun a b => a.round_number ≤ b.round_number)
      (runRounds ctx fuel r k latest) ∧
    (∀ ev ∈ runRounds ctx fuel r k latest, ∀ p : LLMProvider,
      ev.provider = some p →
      ∃ sm ∈ ctx.llms, sm.provider = p ∧ ev.model_id = some sm.model_id) ∧
    (∃ m, boundarySeq (runRounds ctx fuel r k latest) = roundPairs r m ∨
      boundarySeq (runRounds ctx fuel r k latest) =
        roundPairs r m ++ [("round_start", r + m)]) :=
  ⟨runRounds_pairwise ctx fuel r k latest,
   runRounds_participants ctx fuel r k latest,
   runRounds_boundaries ctx fuel r k latest⟩

/-- Claim C9 witness: the ordering invariant instantiated on a concrete
fault-free two-round run over the default participants. -/
theorem run_event_ordering_invariants_witness :
    List.Pairwise (fun a b => a.round_number ≤ b.round_number)
      (runRounds ctxW 2 0 0 []) :=
  (run_event_ordering_invariants ctxW 2 0 0 []).1

/-- With the stop flag never set and no faults among the listed
participants, the participant loop runs every listed participant and exits
normally. -/
theorem runTurns_finishes (ctx : RunCtx) (r : Nat) :
    ∀ (ms : List (Nat × SelectedModel)) (k : Nat) (latest : Latest),
      (∀ n, ctx.stop n = false) →
      (∀ p ∈ ms, ctx.fault r p.1 = none) →
      (runTurns ctx r ms k latest).exit = TurnsExit.finished := by
  intro ms
  induction ms with
  | nil =>
      intro k latest hstop hnf
      rw [runTurns]
  | cons p rest ih =>
      intro k latest hstop hnf
      obtain ⟨i, sm⟩ := p
      rw [runTurns, if_neg (by simp [hstop k])]
      rw [hnf (i, sm) (List.mem_cons_self _ _)]
      exact ih _ _ hstop (fun q hq => hnf q (List.mem_cons_of_mem _ hq))

/-- Per-participant cancellation polling, at any position in the loop: if
the flag is still clear at the polls of the first `j` listed participants
but set at participant `j`'s poll (participant `j` exists, and no fault
fires among the first `j`), the loop emits exactly the first `j`
participants' full event blocks — the same events the uninterrupted loop on
`ms.take j` emits, in the same latest-responses state — then exits by the
cancellation `break`, blocking participant `j` and all later ones. -/
theorem runTurns_stop_after (ctx : RunCtx) (r : Nat) :
    ∀ (j : Nat) (ms : List (Nat × SelectedModel)) (k : Nat) (latest : Latest),
      j < ms.length →
      (∀ t, t < j → ctx.stop (k + t) = false) →
      ctx.stop (k + j) = true →
      (∀ p ∈ ms.take j, ctx.fault r p.1 = none) →
      runTurns ctx r ms k latest =
        ⟨(runTurns (noStopCtx ctx) r (ms.take j) k latest).events,
         (runTurns (noStopCtx ctx) r (ms.take j) k latest).latest,
         k + j + 1, TurnsExit.stopped⟩ := by
  intro j
  induction j with
  | zero =>
      intro ms k latest hj hfalse htrue hnf
      cases ms with
      | nil => simp at hj
      | cons p rest =>
          obtain ⟨i, sm⟩ := p
          rw [Nat.add_zero] at htrue
          rw [runTurns, if_pos htrue]
          simp [runTurns, List.take_zero]
  | succ j ih =>
      intro ms k latest hj hfalse htrue hnf
      cases ms with
      | nil => simp at hj
      | cons p rest =>
          obtain ⟨i, sm⟩ := p
          have h0 : ctx.stop k = false := by
            have := hfalse 0 (Nat.succ_pos j)
            simpa using this
          have hf : ctx.fault r i = none := by
            have := hnf (i, sm) (by rw [List.take_succ_cons]; exact List.mem_cons_self _ _)
            simpa using this
          have hres := ih rest (k + 1)
            (setKey latest (modelKey sm)
              (streamResponse
                (ctx.behavior r i (buildPrompt ctx.question r i latest ctx.llms))
                sm (ctx.mkId r i) r ctx.maxRounds).2)
            (by simp at hj; omega)
            (fun t ht => by
              have := hfalse (t + 1) (by omega)
              rw [show k + 1 + t = k + (t + 1) from by omega]
              exact this)
            (by
              rw [show k + 1 + j = k + (j + 1) from by omega]
              exact htrue)
            (fun q hq => hnf q (by rw [List.take_succ_cons]; exact List.mem_cons_of_mem _ hq))
          rw [List.take_succ_cons]
          rw [runTurns, if_neg (by simp [h0]), hf]
          dsimp only
          rw [hres]
          conv_rhs => rw [runTurns]
          rw [show (noStopCtx ctx).stop k = false from rfl]
          rw [show (noStopCtx ctx).fault r i = ctx.fault r i from rfl, hf]
          dsimp only [noStopCtx]
          rw [show k + 1 + j + 1 = k + (j + 1) + 1 from by omega]
          simp

/-- Claim C3 (amended): cancellation is polled at round boundaries and
additionally before each participant's turn within a round. For every `j`
smaller than the participant count, if the flag is clear at the
top-of-round poll and at the polls of the first `j` participants but set
from participant `j`'s poll on, the round emits `round_start`, then exactly
the first `j` participants' full uninterrupted event blocks (a call already
in flight when the flag rises completes, with all its events), then the
user-stopped `debate_end`: participants `j` and later never take their
turns, and every message event of the round belongs to one of the first `j`
participants. -/
theorem stop_mid_round_blocks_turns (ctx : RunCtx) (fuel r k j : Nat)
    (latest : Latest)
    (hj : j < ctx.llms.length)
    (h0 : ctx.stop k = false)
    (hfalse : ∀ t, t < j → ctx.stop (k + 1 + t) = false)
    (htrue : ctx.stop (k + 1 + j) = true)
    (htrue2 : ctx.stop (k + 1 + j + 1) = true)
    (hnf : ∀ p ∈ ctx.llms.enum.take j, ctx.fault r p.1 = none) :
    runRounds ctx (fuel + 1) r k latest =
      roundStartEvent r ctx.maxRounds ::
        ((runTurns (noStopCtx ctx) r (ctx.llms.enum.take j) (k + 1) latest).events ++
          [debateEndStopEvent r ctx.maxRounds]) ∧
    (runTurns (noStopCtx ctx) r (ctx.llms.enum.take j) (k + 1) latest).exit =
      TurnsExit.finished ∧
    (∀ ev ∈ (runTurns (noStopCtx ctx) r (ctx.llms.enum.take j) (k + 1) latest).events,
      ∃ p ∈ ctx.llms.enum.take j,
        ev.provider = some p.2.provider ∧ ev.model_id = some p.2.model_id) := by
  have hjl : j < ctx.llms.enum.length := by
    rw [List.enum_length]
    exact hj
  have hturns := runTurns_stop_after ctx r j ctx.llms.enum (k + 1) latest hjl hfalse htrue hnf
  refine ⟨?_, ?_, ?_⟩
  · rw [runRounds, if_neg (by simp [h0])]
    dsimp only
    rw [hturns]
    dsimp only
    rw [if_pos htrue2]
  · exact runTurns_finishes (noStopCtx ctx) r _ _ _ (fun n => rfl) (fun p hp => hnf p hp)
  · intro ev hev
    exact (runTurns_events_spec (noStopCtx ctx) r (ctx.llms.enum.take j) (k + 1) latest
      ev hev).2.2

/-- Claim C3 witness: a concrete one-round run over the default pair with
the flag raised at poll index 2 — after participant 0's poll — emits
`round_start`, participant 0's full block, and the user-stopped
`debate_end`, the reference prefix loop finishing normally. -/
theorem stop_mid_round_blocks_turns_witness :
    runRounds ctxStop2 1 0 0 [] =
      roundStartEvent 0 1 ::
        ((runTurns (noStopCtx ctxStop2) 0 (ctxStop2.llms.enum.take 1) 1 []).events ++
          [debateEndStopEvent 0 1]) ∧
    (runTurns (noStopCtx ctxStop2) 0 (ctxStop2.llms.enum.take 1) 1 []).exit =
      TurnsExit.finished := by
  have h := stop_mid_round_blocks_turns ctxStop2 0 0 0 1 [] (by decide) rfl
    (fun t ht => by
      have h0 : t = 0 := by omega
      subst h0
      rfl) rfl rfl (by decide)
  exact ⟨h.1, h.2.1⟩
